import Mathlib

/-!
Verification development for the Process Period Closing Voucher (PCV) job of
this repository (`erpnext/accounts/doctype/process_period_closing_voucher/
process_period_closing_voucher.py`).

The Python module orchestrates a batch job over a single run document
("Process Period Closing Voucher") with a child table of processing units
("Process Period Closing Voucher Detail", one row per (date, report type)).
We embed the module shallowly:

* Python strings are modelled as `Str := List Char`; the framework's float
  helper `flt` is modelled as the identity on `Int` (monetary amounts are
  exact in the model); `flt(None)` reads are modelled as `0` in the typed
  accessors on `BalEntry`.
* The database rows touched by the module are collected in `RunState`
  (run status, the `dates_to_process` child rows, the serialized
  `p_l_closing_balance` field, the committed GL Entry rows, and the queue of
  enqueued background jobs).  `frappe.db.set_value` with a filter dict
  becomes a map over the matching child rows.
* Framework externals (`is_scheduler_inactive`, the accounting-dimension
  configuration, the per-date GL aggregation query, and the success of the
  transactional poster) are parameters collected in `Ctx`.
* Exceptions abort the current call, keeping the writes made so far (the
  spec's error model: a failing step "aborts without transitioning" and
  retry is delegated to redelivery); fallible functions return an error
  component alongside the state.
-/

abbrev Str := List Char

/-- Python `str(...)` literals used by the module. -/
def balances_key : Str := "balances".toList

def none_str : Str := "None".toList

def cost_center_s : Str := "cost_center".toList

def finance_book_s : Str := "finance_book".toList

def project_s : Str := "project".toList

def period_closing_voucher_s : Str := "Period Closing Voucher".toList

def no_s : Str := "No".toList

def account_s : Str := "account".toList

def debit_s : Str := "debit".toList

def credit_s : Str := "credit".toList

def debit_in_account_currency_s : Str := "debit_in_account_currency".toList

def credit_in_account_currency_s : Str := "credit_in_account_currency".toList

def account_currency_s : Str := "account_currency".toList

def balance_in_account_currency_s : Str := "balance_in_account_currency".toList

def balance_in_company_currency_s : Str := "balance_in_company_currency".toList

/-- `frappe.utils.flt` on an already-numeric amount: the identity in this
exact-arithmetic model. -/
def flt (x : Int) : Int := x

/-- The two values of the `report_type` column of the detail rows. -/
inductive ReportType where
  | profit_and_loss
  | balance_sheet
deriving DecidableEq

/-- Status values of the run document and of its detail rows. -/
inductive DocStatus where
  | queued
  | running
  | paused
  | completed
deriving DecidableEq

/-- A dimension key: the ordered tuple of dimension values of a ledger row
(`get_dimension_key`); each value may be `None`. -/
abbrev DimKey := List (Option Str)

/-- One row of the per-date aggregation query result in
`process_individual_date`: sums of debit/credit per (account, dimensions)
group, carrying the account currency.  `dimvals` are the dimension columns
of the row, as a name-to-value association (a `frappe._dict` row). -/
structure Row where
  account : Str
  dimvals : List (Str × Option Str)
  debit : Int
  credit : Int
  debit_in_account_currency : Int
  credit_in_account_currency : Int
  account_currency : Str
deriving DecidableEq

/-- The per-account accumulator dict created by
`build_dimension_wise_balance_dict` for a real account. -/
structure AccBal where
  debit_in_account_currency : Int
  credit_in_account_currency : Int
  debit : Int
  credit : Int
  account_currency : Str
deriving DecidableEq

/-- The dimension-wise totals dict stored under the pseudo-key
`"balances"`. -/
structure DimTotals where
  balance_in_account_currency : Int
  balance_in_company_currency : Int
deriving DecidableEq

/-- A value of the inner dict `dimension_balances[dimension_key]`: either a
per-account accumulator or the `"balances"` totals entry (the Python dict is
heterogeneous). -/
inductive BalEntry where
  | acc (b : AccBal)
  | tot (t : DimTotals)
deriving DecidableEq

/-- `flt(balances.debit)`: a `frappe._dict` returns `None` for a missing
attribute and `flt(None) = 0`, so the totals entry reads as `0`. -/
def entry_debit : BalEntry → Int
  | .acc b => b.debit
  | .tot _ => 0

def entry_credit : BalEntry → Int
  | .acc b => b.credit
  | .tot _ => 0

def entry_debit_in_account_currency : BalEntry → Int
  | .acc b => b.debit_in_account_currency
  | .tot _ => 0

def entry_credit_in_account_currency : BalEntry → Int
  | .acc b => b.credit_in_account_currency
  | .tot _ => 0

/-- `balances.account_currency`: `None` on the totals entry. -/
def entry_account_currency : BalEntry → Option Str
  | .acc b => some b.account_currency
  | .tot _ => none

/-- `flt(dimension_balance.balance_in_company_currency)`: `0` when read from
a per-account entry (missing attribute). -/
def entry_balance_in_company_currency : BalEntry → Int
  | .acc _ => 0
  | .tot t => t.balance_in_company_currency

/-- The inner dict `dimension_balances[dimension_key]` as an
insertion-ordered association list. -/
abbrev AccountMap := List (Str × BalEntry)

/-- The outer dict `dimension_wise_acc_balances`. -/
abbrev DimMap := List (DimKey × AccountMap)

/-- Python `dict.get` on an association list whose stored values may
themselves be `None`. -/
def pyGet (l : List (Str × Option Str)) (k : Str) : Option Str :=
  match l.find? (fun p => p.1 = k) with
  | some p => p.2
  | none => none

/-- `d.setdefault(k, dflt)` followed by an in-place mutation `f` of `d[k]`,
on an insertion-ordered association list (a Python dict keeps insertion
order; a fresh key is appended at the end). -/
def updAssoc [DecidableEq α] (k : α) (dflt : β) (f : β → β) : List (α × β) → List (α × β)
  | [] => [(k, f dflt)]
  | p :: rest => if p.1 = k then (p.1, f p.2) :: rest else p :: updAssoc k dflt f rest

/-- Association-list lookup (`d[k]`, as an `Option` instead of `KeyError`). -/
def lookupEntry (l : List (Str × BalEntry)) (k : Str) : Option BalEntry :=
  match l.find? (fun p => p.1 = k) with
  | some p => some p.2
  | none => none

/-- `get_dimensions()`: the three default dimensions plus the configured
accounting dimensions (`get_accounting_dimensions()` is an external
configuration read, passed in as `custom`). -/
def get_dimensions (custom : List Str) : List Str :=
  [cost_center_s, finance_book_s, project_s] ++ custom

/-- `get_dimension_key(res)`: the tuple of `res.get(dimension)` for each
dimension, in `get_dimensions` order. -/
def get_dimension_key (custom : List Str) (res : List (Str × Option Str)) : DimKey :=
  (get_dimensions custom).map (fun d => pyGet res d)

/-- The accumulator dict inserted by
`setdefault(x.account, frappe._dict({... 0, 'account_currency': x.account_currency}))`. -/
def init_acc_bal (currency : Str) : BalEntry :=
  .acc { debit_in_account_currency := 0, credit_in_account_currency := 0,
         debit := 0, credit := 0, account_currency := currency }

/-- The four `+=` updates on `dimension_balances[dimension_key][x.account]`.
On a `.tot` entry (an account literally named `"balances"`) the Python code
would raise a `TypeError` (`None + float`); no claim exercises that corner
and the model leaves such an entry unchanged. -/
def add_row_to_account (x : Row) : BalEntry → BalEntry
  | .acc b => .acc { b with
      debit_in_account_currency := b.debit_in_account_currency + flt x.debit_in_account_currency,
      credit_in_account_currency := b.credit_in_account_currency + flt x.credit_in_account_currency,
      debit := b.debit + flt x.debit,
      credit := b.credit + flt x.credit }
  | .tot t => .tot t

/-- The two `+=` updates on `dimension_balances[dimension_key]["balances"]`. -/
def add_row_to_totals (x : Row) : BalEntry → BalEntry
  | .tot t => .tot { t with
      balance_in_account_currency := t.balance_in_account_currency
        + (flt x.debit_in_account_currency - flt x.credit_in_account_currency),
      balance_in_company_currency := t.balance_in_company_currency
        + (flt x.debit - flt x.credit) }
  | .acc b => .acc b

/-- One iteration of the loop in `build_dimension_wise_balance_dict`:
`setdefault` the dimension group, `setdefault`-and-accumulate the account
entry, then `setdefault`-and-accumulate the `"balances"` totals entry. -/
def accumulate_row (custom : List Str) (m : DimMap) (x : Row) : DimMap :=
  updAssoc (get_dimension_key custom x.dimvals) []
    (fun am =>
      updAssoc balances_key (BalEntry.tot { balance_in_account_currency := 0,
                                            balance_in_company_currency := 0 })
        (add_row_to_totals x)
        (updAssoc x.account (init_acc_bal x.account_currency) (add_row_to_account x) am))
    m

/-- `build_dimension_wise_balance_dict(gl_entries)`. -/
def build_dimension_wise_balance_dict (custom : List Str) (gl_entries : List Row) : DimMap :=
  gl_entries.foldl (accumulate_row custom) []

/-- The parent Period Closing Voucher fields read by the GL builders,
together with the closing account's currency
(`frappe.db.get_value("Account", pcv.closing_account_head, "account_currency")`,
an external read). -/
structure Pcv where
  name : Str
  company : Str
  period_end_date : Nat
  fiscal_year : Str
  remarks : Str
  closing_account_head : Str
  closing_account_currency : Option Str
deriving DecidableEq

/-- A GL Entry record built by the poster.  The fixed fields mirror the dict
literals in the source; `dim_fields` records the dynamic assignments of the
trailing loop `for i, dimension in enumerate(dimensions): gl_entry[dimension]
= dimensions[i]` as (key, value) pairs in loop order.  (In Python those
assignments land in the same dict as the fixed fields; the model keeps them
separate, which is faithful as long as no dimension value collides with a
fixed field name.) -/
structure GlEntry where
  company : Str
  posting_date : Nat
  account : Str
  account_currency : Option Str
  debit_in_account_currency : Int
  debit : Int
  credit_in_account_currency : Int
  credit : Int
  is_period_closing_voucher_entry : Nat
  voucher_type : Str
  voucher_no : Str
  fiscal_year : Str
  remarks : Str
  is_opening : Str
  dim_fields : List (Option Str × Option Str)
deriving DecidableEq

/-- `get_gle_for_pl_account(pcv, acc, balances, dimensions)`. -/
def get_gle_for_pl_account (pcv : Pcv) (acc : Str) (balances : BalEntry)
    (dimensions : DimKey) : GlEntry :=
  let balance_in_account_currency :=
    flt (entry_debit_in_account_currency balances) - flt (entry_credit_in_account_currency balances)
  let balance_in_company_currency := flt (entry_debit balances) - flt (entry_credit balances)
  { company := pcv.company
    posting_date := pcv.period_end_date
    account := acc
    account_currency := entry_account_currency balances
    debit_in_account_currency :=
      if balance_in_account_currency < 0 then |balance_in_account_currency| else 0
    debit := if balance_in_company_currency < 0 then |balance_in_company_currency| else 0
    credit_in_account_currency :=
      if balance_in_account_currency > 0 then |balance_in_account_currency| else 0
    credit := if balance_in_company_currency > 0 then |balance_in_company_currency| else 0
    is_period_closing_voucher_entry := 1
    voucher_type := period_closing_voucher_s
    voucher_no := pcv.name
    fiscal_year := pcv.fiscal_year
    remarks := pcv.remarks
    is_opening := no_s
    dim_fields := dimensions.map (fun v => (v, v)) }

/-- `get_gle_for_closing_account(pcv, dimension_balance, dimensions)`. -/
def get_gle_for_closing_account (pcv : Pcv) (dimension_balance : BalEntry)
    (dimensions : DimKey) : GlEntry :=
  let balance_in_company_currency := flt (entry_balance_in_company_currency dimension_balance)
  let debit := if balance_in_company_currency > 0 then balance_in_company_currency else 0
  let credit := if balance_in_company_currency < 0 then |balance_in_company_currency| else 0
  { company := pcv.company
    posting_date := pcv.period_end_date
    account := pcv.closing_account_head
    account_currency := pcv.closing_account_currency
    debit_in_account_currency := debit
    debit := debit
    credit_in_account_currency := credit
    credit := credit
    is_period_closing_voucher_entry := 1
    voucher_type := period_closing_voucher_s
    voucher_no := pcv.name
    fiscal_year := pcv.fiscal_year
    remarks := pcv.remarks
    is_opening := no_s
    dim_fields := dimensions.map (fun v => (v, v)) }

/-! ### Serialization: comma-joined dimension keys and the JSON payloads -/

/-- Python `str(x)` on a dimension value: `str(None) = "None"`. -/
def py_str : Option Str → Str
  | none => none_str
  | some s => s

/-- `",".join(parts)` on character-list strings. -/
def join_comma : List Str → Str
  | [] => []
  | [x] => x
  | x :: y :: t => x ++ ',' :: join_comma (y :: t)

/-- Modelled from the spec: the spec's parse direction for a stored key —
"parsed back (by splitting on the delimiter)"; the sources only serialize,
so the splitter follows Python `s.split(",")` semantics
(`"".split(",") == [""]`). -/
def split_on_comma : Str → List Str
  | [] => [[]]
  | c :: rest =>
    match split_on_comma rest with
    | [] => [[]]
    | h :: t => if c = ',' then [] :: h :: t else (c :: h) :: t

/-- The `json_dict` built in `summarize_and_post_ledger_entries`: tuple keys
stringified and comma-joined, assigned into a fresh dict (assignment keeps
the first occurrence's position and overwrites its value, like a Python
dict). -/
def to_json_dict (dwb : DimMap) : List (Str × AccountMap) :=
  dwb.foldl (fun acc kv => updAssoc (join_comma (kv.1.map py_str)) kv.2 (fun _ => kv.2) acc) []

/-- A JSON value, used to state what `frappe.json.dumps` persists. -/
inductive Json where
  | null
  | str (s : Str)
  | num (n : Int)
  | arr (xs : List Json)
  | obj (fields : List (Str × Json))

def opt_str_json : Option Str → Json
  | none => .null
  | some s => .str s

/-- One aggregation-result row as `frappe.json.dumps` serializes it: the
columns in query-select order (`account`, the dimension columns, the four
sums, `account_currency`). -/
def row_to_json (r : Row) : Json :=
  .obj ([(account_s, .str r.account)]
    ++ r.dimvals.map (fun p => (p.1, opt_str_json p.2))
    ++ [(debit_s, .num r.debit), (credit_s, .num r.credit),
        (debit_in_account_currency_s, .num r.debit_in_account_currency),
        (credit_in_account_currency_s, .num r.credit_in_account_currency),
        (account_currency_s, .str r.account_currency)])

/-- `frappe.json.dumps(res)` for the worker's aggregation result: a JSON
array of row objects. -/
def serialize_rows (rows : List Row) : Json :=
  .arr (rows.map row_to_json)

def bal_entry_json : BalEntry → Json
  | .acc b => .obj [(debit_in_account_currency_s, .num b.debit_in_account_currency),
                    (credit_in_account_currency_s, .num b.credit_in_account_currency),
                    (debit_s, .num b.debit), (credit_s, .num b.credit),
                    (account_currency_s, .str b.account_currency)]
  | .tot t => .obj [(balance_in_account_currency_s, .num t.balance_in_account_currency),
                    (balance_in_company_currency_s, .num t.balance_in_company_currency)]

def account_map_json (am : AccountMap) : Json :=
  .obj (am.map (fun e => (e.1, bal_entry_json e.2)))

/-- The serialized dimension-keyed mapping (comma-joined tuple keys), the
shape `summarize_and_post_ledger_entries` persists on the run. -/
def keyed_mapping_json (dwb : DimMap) : Json :=
  .obj ((to_json_dict dwb).map (fun e => (e.1, account_map_json e.2)))

def json_is_obj : Json → Bool
  | .obj _ => true
  | _ => false

/-! ### The run state and the scheduler operations -/

/-- The identifying columns of a detail row (the filters every
`frappe.db.set_value`/`get_value` on the child table uses, besides
`parent`). -/
structure UnitKey where
  processing_date : Nat
  report_type : ReportType
deriving DecidableEq

/-- One `Process Period Closing Voucher Detail` row of the
`dates_to_process` table. -/
structure ProcessPeriodClosingVoucherDetail where
  key : UnitKey
  status : DocStatus
  closing_balance : Option (List Row)
deriving DecidableEq

/-- The mutable state of one run: the run document's `status` and
`p_l_closing_balance` fields, its `dates_to_process` rows, the committed GL
Entry rows (the external ledger store), and the queue of enqueued
`process_individual_date` background jobs.  (The `opening_balances` child
table of the document is touched by no claimed operation and is omitted.) -/
structure RunState where
  status : DocStatus
  units : List ProcessPeriodClosingVoucherDetail
  p_l_closing_balance : Option (List (Str × AccountMap))
  ledger : List GlEntry
  pending : List UnitKey
deriving DecidableEq

/-- The framework/configuration environment of a call: whether the scheduler
is active (`not is_scheduler_inactive()`), the configured accounting
dimensions, the parent voucher's fields, the per-(date, report type)
aggregation query result (an external read), and whether the transactional
poster succeeds. -/
structure Ctx where
  scheduler_active : Bool
  custom_dimensions : List Str
  pcv : Pcv
  agg : Nat → ReportType → List Row
  post_ok : Bool

/-- Ways a call of this module can raise: `json.loads(None)` on a detail row
without a stored result, `account_balances["balances"]` missing
(`KeyError`), or `make_gl_entries` failing. -/
inductive PcvError where
  | json_load_failed
  | key_missing
  | posting_failed
deriving DecidableEq

/-- `frappe.db.set_value("... Detail", {processing_date, parent, report_type},
"status", st)`: update the status of every matching row. -/
def setUnitStatus (units : List ProcessPeriodClosingVoucherDetail) (k : UnitKey)
    (st : DocStatus) : List ProcessPeriodClosingVoucherDetail :=
  units.map (fun u => if u.key = k then { u with status := st } else u)

/-- The same update on the `closing_balance` column. -/
def setUnitClosingBalance (units : List ProcessPeriodClosingVoucherDetail) (k : UnitKey)
    (v : Option (List Row)) : List ProcessPeriodClosingVoucherDetail :=
  units.map (fun u => if u.key = k then { u with closing_balance := v } else u)

/-- `frappe.db.get_value("... Detail", {...}, "status")`: the first matching
row's status, `None` if there is none. -/
def unit_status (units : List ProcessPeriodClosingVoucherDetail) (k : UnitKey) :
    Option DocStatus :=
  (units.find? (fun u => u.key = k)).map (fun u => u.status)

/-- The stored `closing_balance` of the addressed row (`None` both for a
missing row and for a row whose column is NULL). -/
def unit_closing_balance (units : List ProcessPeriodClosingVoucherDetail) (k : UnitKey) :
    Option (List Row) :=
  (units.find? (fun u => u.key = k)).bind (fun u => u.closing_balance)

/-- Stable insertion of a detail row into a date-sorted list. -/
def insert_by_date (u : ProcessPeriodClosingVoucherDetail) :
    List ProcessPeriodClosingVoucherDetail → List ProcessPeriodClosingVoucherDetail
  | [] => [u]
  | v :: rest =>
    if u.key.processing_date ≤ v.key.processing_date then u :: v :: rest
    else v :: insert_by_date u rest

def sort_by_date (l : List ProcessPeriodClosingVoucherDetail) :
    List ProcessPeriodClosingVoucherDetail :=
  l.foldr insert_by_date []

/-- The fetch both Start and Advance issue: up to 4 `Queued` detail rows of
the run, ordered by `processing_date`. -/
def fetch_queued (units : List ProcessPeriodClosingVoucherDetail) :
    List ProcessPeriodClosingVoucherDetail :=
  (sort_by_date (units.filter (fun u => u.status = DocStatus.queued))).take 4

/-- One dispatch: mark the addressed row `Running` and enqueue
`process_individual_date` for it (`BACKGROUND = True`, so the job is queued,
not run inline). -/
def dispatch_unit (s : RunState) (u : ProcessPeriodClosingVoucherDetail) : RunState :=
  { s with units := setUnitStatus s.units u.key DocStatus.running,
           pending := s.pending ++ [u.key] }

/-- The dispatch loop of `start_pcv_processing` over its fetched batch. -/
def dispatch_units (s : RunState) (batch : List ProcessPeriodClosingVoucherDetail) : RunState :=
  batch.foldl dispatch_unit s

/-- The body of `start_pcv_processing` after its status guard (the run is
already set to `Running` here): fetch up to 4 queued rows; dispatch them if
the scheduler is active; if none were found, mark the run `Completed`. -/
def startAfterGuard (c : Ctx) (s : RunState) : RunState :=
  match fetch_queued s.units with
  | [] => { s with status := DocStatus.completed }
  | u :: rest => if c.scheduler_active then dispatch_units s (u :: rest) else s

/-- `start_pcv_processing(docname)`. -/
def start_pcv_processing (c : Ctx) (s : RunState) : RunState :=
  if s.status ∈ [DocStatus.queued, DocStatus.running] then
    startAfterGuard c { s with status := DocStatus.running }
  else s

/-- `pause_pcv_processing(docname)`: unconditionally set the run `Paused`
and move its `Queued` rows to `Paused`. -/
def pause_pcv_processing (s : RunState) : RunState :=
  { s with status := DocStatus.paused,
           units := s.units.map (fun u =>
             if u.status = DocStatus.queued then { u with status := DocStatus.paused } else u) }

/-- The body of `resume_pcv_processing` after the run status write: if any
row is `Paused`, move the paused rows back to `Queued` and re-invoke Start. -/
def resumeAfterStatus (c : Ctx) (s : RunState) : RunState :=
  if (s.units.filter (fun u => u.status = DocStatus.paused)) = [] then s
  else start_pcv_processing c
    { s with units := s.units.map (fun u =>
        if u.status = DocStatus.paused then { u with status := DocStatus.queued } else u) }

/-- `resume_pcv_processing(docname)`: unconditionally set the run `Running`,
then requeue paused rows and restart. -/
def resume_pcv_processing (c : Ctx) (s : RunState) : RunState :=
  resumeAfterStatus c { s with status := DocStatus.running }

/-- The loop `for x in ppcv.dates_to_process: if x.report_type == "Profit and
Loss": gl_entries.extend(json.loads(x.closing_balance))`; `None` for a
stored balance raises (`json.loads(None)`). -/
def collect_closing_balances :
    List ProcessPeriodClosingVoucherDetail → Option (List Row)
  | [] => some []
  | u :: t =>
    if u.key.report_type = ReportType.profit_and_loss then
      match u.closing_balance, collect_closing_balances t with
      | some rows, some rest => some (rows ++ rest)
      | _, _ => none
    else collect_closing_balances t

/-- The `pl_accounts_reverse_gle` list: for every dimension group and every
entry of its account dict (the `"balances"` totals entry included — it reads
as balance 0 and is filtered out), a reversing entry when the
company-currency balance is nonzero. -/
def pl_reversal_entries (c : Ctx) (dwb : DimMap) : List GlEntry :=
  (dwb.map (fun kv =>
    kv.2.filterMap (fun ab =>
      if flt (entry_debit ab.2) - flt (entry_credit ab.2) ≠ 0 then
        some (get_gle_for_pl_account c.pcv ab.1 ab.2 kv.1)
      else none))).flatten

/-- The `closing_account_gle` list: one entry per dimension group, built
from `account_balances["balances"]` (`KeyError`, i.e. `none`, if absent). -/
def closing_entries (c : Ctx) : DimMap → Option (List GlEntry)
  | [] => some []
  | (dk, am) :: t =>
    match lookupEntry am balances_key, closing_entries c t with
    | some b, some rest => some (get_gle_for_closing_account c.pcv b dk :: rest)
    | _, _ => none

/-- `gl_entries = pl_accounts_reverse_gle + closing_account_gle`. -/
def build_gl_map (c : Ctx) (dwb : DimMap) : Option (List GlEntry) :=
  (closing_entries c dwb).map (fun cl => pl_reversal_entries c dwb ++ cl)

/-- Modelled from the spec: `make_gl_entries` (from
`erpnext.accounts.general_ledger`, not among the sources) posts the batch
transactionally — per the spec, on success every entry is committed, on
failure none are. -/
def make_gl_entries (ok : Bool) (ledger entries : List GlEntry) : Option (List GlEntry) :=
  if ok then some (ledger ++ entries) else none

/-- The tail of `summarize_and_post_ledger_entries` after the merged mapping
has been persisted: build the GL map, post it if nonempty, then mark the run
`Completed`; a posting failure aborts before the status write. -/
def postSummary (c : Ctx) (s : RunState) (dwb : DimMap) : RunState × Option PcvError :=
  match build_gl_map c dwb with
  | none => (s, some PcvError.key_missing)
  | some gl_entries =>
    if gl_entries = [] then ({ s with status := DocStatus.completed }, none)
    else
      match make_gl_entries c.post_ok s.ledger gl_entries with
      | some ledger2 => ({ s with ledger := ledger2, status := DocStatus.completed }, none)
      | none => (s, some PcvError.posting_failed)

/-- `summarize_and_post_ledger_entries(docname)`: a no-op while some row is
still `Running`; otherwise merge the stored per-date balances, persist the
merged mapping (tuple keys comma-joined) on the run, then post and complete. -/
def summarize_and_post_ledger_entries (c : Ctx) (s : RunState) : RunState × Option PcvError :=
  if (s.units.filter (fun u => u.status = DocStatus.running)) = [] then
    match collect_closing_balances s.units with
    | none => (s, some PcvError.json_load_failed)
    | some gl_rows =>
      postSummary c
        { s with p_l_closing_balance := some (to_json_dict
            (build_dimension_wise_balance_dict c.custom_dimensions gl_rows)) }
        (build_dimension_wise_balance_dict c.custom_dimensions gl_rows)
  else (s, none)

/-- `schedule_next_date(docname)`: re-fetch up to 4 queued rows; if any,
dispatch only the first (`to_process[0]`); otherwise, when the completed
count equals the total count, summarize and post. -/
def schedule_next_date (c : Ctx) (s : RunState) : RunState × Option PcvError :=
  match fetch_queued s.units with
  | u :: _ => if c.scheduler_active then (dispatch_unit s u, none) else (s, none)
  | [] =>
    if s.units.length = (s.units.filter (fun u => u.status = DocStatus.completed)).length then
      summarize_and_post_ledger_entries c s
    else (s, none)

/-- The body of `process_individual_date` after its status guard: run the
aggregation query, persist the serialized result, mark the row `Completed`,
then chain-call `schedule_next_date`. -/
def workerBody (c : Ctx) (s : RunState) (k : UnitKey) : RunState × Bool × Option PcvError :=
  let res := c.agg k.processing_date k.report_type
  let s2 : RunState :=
    { s with units := setUnitStatus (setUnitClosingBalance s.units k (some res))
                        k DocStatus.completed }
  ((schedule_next_date c s2).1, true, (schedule_next_date c s2).2)

/-- `process_individual_date(docname, date, report_type)`.  The middle
component records whether the Advance step (`schedule_next_date`) was
invoked. -/
def process_individual_date (c : Ctx) (s : RunState) (k : UnitKey) :
    RunState × Bool × Option PcvError :=
  if unit_status s.units k = some DocStatus.running then workerBody c s k
  else (s, false, none)

/-- Execution of one enqueued background job: the job leaves the queue and
the worker runs (exceptions abort the job, keeping the writes made so far). -/
def run_pending_worker (c : Ctx) (s : RunState) (k : UnitKey) : RunState :=
  (process_individual_date c { s with pending := s.pending.erase k } k).1

/-- One step of the system: any of the three exposed entry points, or the
execution of one enqueued worker job (which runs its Advance chain
synchronously at its end). -/
inductive Step (c : Ctx) : RunState → RunState → Prop
  | start (s : RunState) : Step c s (start_pcv_processing c s)
  | pause (s : RunState) : Step c s (pause_pcv_processing s)
  | resume (s : RunState) : Step c s (resume_pcv_processing c s)
  | worker (s : RunState) (k : UnitKey) (h : k ∈ s.pending) : Step c s (run_pending_worker c s k)

/-- Reachability through any interleaving of Start, Pause, Resume and worker
executions. -/
def Reachable (c : Ctx) (s0 s : RunState) : Prop :=
  Relation.ReflTransGen (Step c) s0 s

/-- Steps without a (re-)Start: worker executions and Pause only. -/
inductive WorkerStep (c : Ctx) : RunState → RunState → Prop
  | worker (s : RunState) (k : UnitKey) (h : k ∈ s.pending) :
      WorkerStep c s (run_pending_worker c s k)
  | pause (s : RunState) : WorkerStep c s (pause_pcv_processing s)

/-- The number of detail rows currently `Running`. -/
def runningLen (s : RunState) : Nat :=
  (s.units.filter (fun u => u.status = DocStatus.running)).length

def unitKeys (s : RunState) : List UnitKey :=
  s.units.map (fun u => u.key)

/-! ### Concrete fixtures used by counterexamples and witnesses -/

def companyEx : Str := "Test Company".toList

def pcvNameEx : Str := "PCV-0001".toList

def fyEx : Str := "2024".toList

def remarksEx : Str := "closing".toList

def closingHeadEx : Str := "Retained Earnings".toList

def usdEx : Str := "USD".toList

def salesAccEx : Str := "Sales".toList

def ccMainEx : Str := "Main".toList

def pcvEx : Pcv :=
  { name := pcvNameEx, company := companyEx, period_end_date := 30,
    fiscal_year := fyEx, remarks := remarksEx,
    closing_account_head := closingHeadEx, closing_account_currency := some usdEx }

/-- A nonzero aggregation row: 5 debit to `Sales` under cost-center `Main`. -/
def rowEx : Row :=
  { account := salesAccEx,
    dimvals := [(cost_center_s, some ccMainEx), (finance_book_s, none), (project_s, none)],
    debit := 5, credit := 0, debit_in_account_currency := 5,
    credit_in_account_currency := 0, account_currency := usdEx }

def cEx : Ctx :=
  { scheduler_active := true, custom_dimensions := [], pcv := pcvEx,
    agg := fun _ _ => [], post_ok := true }

def cFailEx : Ctx :=
  { scheduler_active := true, custom_dimensions := [], pcv := pcvEx,
    agg := fun _ _ => [], post_ok := false }

def cAggEx : Ctx :=
  { scheduler_active := true, custom_dimensions := [], pcv := pcvEx,
    agg := fun _ _ => [rowEx], post_ok := true }

def mkUnit (d : Nat) (rt : ReportType) (st : DocStatus) (cb : Option (List Row)) :
    ProcessPeriodClosingVoucherDetail :=
  { key := { processing_date := d, report_type := rt }, status := st, closing_balance := cb }

def kEx : UnitKey := { processing_date := 0, report_type := ReportType.profit_and_loss }

/-- A freshly validated run with a single queued unit. -/
def init1 : RunState :=
  { status := DocStatus.queued, units := [mkUnit 0 ReportType.profit_and_loss DocStatus.queued none],
    p_l_closing_balance := none, ledger := [], pending := [] }

/-- A freshly validated run over 4 days with both report types: 8 queued
units. -/
def init8 : RunState :=
  { status := DocStatus.queued,
    units :=
      [mkUnit 0 ReportType.profit_and_loss DocStatus.queued none,
       mkUnit 0 ReportType.balance_sheet DocStatus.queued none,
       mkUnit 1 ReportType.profit_and_loss DocStatus.queued none,
       mkUnit 1 ReportType.balance_sheet DocStatus.queued none,
       mkUnit 2 ReportType.profit_and_loss DocStatus.queued none,
       mkUnit 2 ReportType.balance_sheet DocStatus.queued none,
       mkUnit 3 ReportType.profit_and_loss DocStatus.queued none,
       mkUnit 3 ReportType.balance_sheet DocStatus.queued none],
    p_l_closing_balance := none, ledger := [], pending := [] }

/-- A running run with two queued units (for the Advance batch claim). -/
def sTwoQueued : RunState :=
  { status := DocStatus.running,
    units := [mkUnit 0 ReportType.profit_and_loss DocStatus.queued none,
              mkUnit 1 ReportType.profit_and_loss DocStatus.queued none],
    p_l_closing_balance := none, ledger := [], pending := [] }

/-- A run whose single unit is done with an empty stored result. -/
def sDone : RunState :=
  { status := DocStatus.running,
    units := [mkUnit 0 ReportType.profit_and_loss DocStatus.completed (some [])],
    p_l_closing_balance := none, ledger := [], pending := [] }

/-- A completed run (for the guard claims). -/
def sCompleted : RunState :=
  { status := DocStatus.completed,
    units := [mkUnit 0 ReportType.profit_and_loss DocStatus.completed (some [])],
    p_l_closing_balance := none, ledger := [], pending := [] }

/-- A run whose single unit is done with a nonzero stored balance (the poster
will build a nonempty GL batch for it). -/
def sPost : RunState :=
  { status := DocStatus.running,
    units := [mkUnit 0 ReportType.profit_and_loss DocStatus.completed (some [rowEx])],
    p_l_closing_balance := none, ledger := [], pending := [] }

/-- A run whose single unit is currently `Running` (a claimed worker job). -/
def sRun1 : RunState :=
  { status := DocStatus.running,
    units := [mkUnit 0 ReportType.profit_and_loss DocStatus.running none],
    p_l_closing_balance := none, ledger := [], pending := [kEx] }

/-! ### Shared helper lemmas -/

/-- A filter that keeps every element: all elements satisfy the predicate. -/
theorem all_of_length_eq_filter {α : Type} {p : α → Bool} :
    ∀ l : List α, l.length = (l.filter p).length → ∀ a ∈ l, p a = true := by
  intro l
  induction l with
  | nil => intro _ a ha; cases ha
  | cons x t ih =>
    intro hlen a ha
    by_cases hx : p x = true
    · rcases List.mem_cons.mp ha with rfl | hat
      · exact hx
      · refine ih ?_ a hat
        simpa [List.filter_cons, hx] using hlen
    · exfalso
      have hflt : List.filter p (x :: t) = List.filter p t := by simp [List.filter_cons, hx]
      have hle2 := List.length_filter_le p t
      rw [hflt] at hlen
      simp only [List.length_cons] at hlen
      omega

/-! ### Claim C1 -/

/-- The literal claim: in every state reachable from `s0`, the run's status
is `Completed` exactly when every detail row's status is `Completed`. -/
def RunCompletedIffAllUnits (c : Ctx) (s0 : RunState) : Prop :=
  ∀ s, Reachable c s0 s →
    (s.status = DocStatus.completed ↔ ∀ u ∈ s.units, u.status = DocStatus.completed)

/-- C1 (counterexample): starting from a fresh one-unit run, calling Start
twice yields a reachable state whose run status is `Completed` while its
unit is still `Running` — the first Start dispatches the unit, the second
finds no `Queued` unit and marks the run `Completed` without checking for
`Running` (or `Paused`) units. -/
theorem C1_counterexample : ¬ RunCompletedIffAllUnits cEx init1 := by
  intro h
  have h2 := h (start_pcv_processing cEx (start_pcv_processing cEx init1))
    (Relation.ReflTransGen.tail
      (Relation.ReflTransGen.tail Relation.ReflTransGen.refl (Step.start init1))
      (Step.start (start_pcv_processing cEx init1)))
  have h3 := h2.mp (by decide)
  exact absurd
    (h3 (mkUnit 0 ReportType.profit_and_loss DocStatus.running none) (by decide)) (by decide)

/-- C1 (amended): the Advance path (`schedule_next_date`) marks the run
`Completed` only when every detail row is `Completed` (its else-branch
compares the completed count with the total count before summarizing);
Start, by contrast, marks the run `Completed` as soon as it finds no
`Queued` row, even while rows are `Running` or `Paused`, so the
biconditional invariant fails (see the counterexample). -/
theorem C1_amended (c : Ctx) (s : RunState)
    (h : (schedule_next_date c s).1.status = DocStatus.completed)
    (hs : s.status ≠ DocStatus.completed) :
    ∀ u ∈ s.units, u.status = DocStatus.completed := by
  unfold schedule_next_date at h
  split at h
  · split at h
    · exact absurd h hs
    · exact absurd h hs
  · split at h
    · next hlen =>
      intro u hu
      have := all_of_length_eq_filter s.units hlen u hu
      simpa using this
    · exact absurd h hs

theorem C1_amended_witness :
    (schedule_next_date cEx sDone).1.status = DocStatus.completed ∧
      sDone.status ≠ DocStatus.completed ∧
      ∀ u ∈ sDone.units, u.status = DocStatus.completed :=
  ⟨by decide, by decide, C1_amended cEx sDone (by decide) (by decide)⟩

/-! ### Claim C3 -/

/-- The literal claim: when queued units exist (and the environment's
scheduler is active), the Advance step dispatches its whole fetched batch
the same way Start does (`dispatch_units`). -/
def AdvanceDispatchesWholeBatch (c : Ctx) (s : RunState) : Prop :=
  fetch_queued s.units ≠ [] → c.scheduler_active = true →
    (schedule_next_date c s).1 = dispatch_units s (fetch_queued s.units)

/-- C3 (counterexample): with two queued units, `schedule_next_date` fetches
both but marks only the first `Running` and enqueues only one worker
(`to_process[0]`), unlike Start's dispatch loop. -/
theorem C3_counterexample : ¬ AdvanceDispatchesWholeBatch cEx sTwoQueued := by
  unfold AdvanceDispatchesWholeBatch
  decide

/-- C3 (amended): the Advance step re-queries for up to 4 `Queued` units but
dispatches exactly the first (earliest-date) fetched unit — one status write
to `Running` and one enqueue — leaving the rest of the fetched batch
`Queued`. -/
theorem C3_amended (c : Ctx) (s : RunState) (u : ProcessPeriodClosingVoucherDetail)
    (rest : List ProcessPeriodClosingVoucherDetail)
    (hf : fetch_queued s.units = u :: rest) (ha : c.scheduler_active = true) :
    schedule_next_date c s = (dispatch_unit s u, none) := by
  unfold schedule_next_date
  rw [hf]
  simp [ha]

theorem C3_amended_witness :
    fetch_queued sTwoQueued.units
        = [mkUnit 0 ReportType.profit_and_loss DocStatus.queued none,
           mkUnit 1 ReportType.profit_and_loss DocStatus.queued none] ∧
      cEx.scheduler_active = true ∧
      schedule_next_date cEx sTwoQueued
        = (dispatch_unit sTwoQueued (mkUnit 0 ReportType.profit_and_loss DocStatus.queued none),
           none) :=
  ⟨by decide, rfl,
   C3_amended cEx sTwoQueued (mkUnit 0 ReportType.profit_and_loss DocStatus.queued none)
     [mkUnit 1 ReportType.profit_and_loss DocStatus.queued none] (by decide) rfl⟩

/-! ### Claim C5 -/

/-- C5: `process_individual_date` on a unit whose current status is not
`Running` is a no-op: the state (unit rows, stored results, statuses, job
queue, ledger) is returned unchanged, the Advance step is not invoked (the
`Bool` component is `false`), and no error is raised. -/
theorem C5_worker_guard (c : Ctx) (s : RunState) (k : UnitKey)
    (h : unit_status s.units k ≠ some DocStatus.running) :
    process_individual_date c s k = (s, false, none) := by
  unfold process_individual_date
  rw [if_neg h]

theorem C5_worker_guard_witness :
    unit_status sDone.units kEx ≠ some DocStatus.running ∧
      process_individual_date cEx sDone kEx = (sDone, false, none) :=
  ⟨by decide, C5_worker_guard cEx sDone kEx (by decide)⟩

/-! ### Claim C6 -/

/-- The literal claim, instantiated at the status the claim itself names
(`Completed`): each entry point is guarded into a no-op on a completed run. -/
def EntryPointsGuardedIdempotent (c : Ctx) : Prop :=
  ∀ s : RunState, s.status = DocStatus.completed →
    start_pcv_processing c s = s ∧ pause_pcv_processing s = s ∧
      resume_pcv_processing c s = s

/-- C6 (counterexample): Pause on a `Completed` run is not a no-op — it has
no status guard and unconditionally rewrites the run status to `Paused`. -/
theorem C6_counterexample : ¬ EntryPointsGuardedIdempotent cEx := by
  intro h
  exact absurd ((h sCompleted (by decide)).2.1) (by decide)

/-- C6 (amended): only Start has a no-op status guard (it does nothing
unless the run is `Queued` or `Running`, in particular on a `Completed`
run); Pause and Resume write unconditionally: Pause on a `Completed` run
sets its status to `Paused`, and Resume on a `Completed` run (with no
`Paused` units) sets its status to `Running`. -/
theorem C6_amended (c : Ctx) (s : RunState) (h : s.status = DocStatus.completed) :
    start_pcv_processing c s = s ∧
      (pause_pcv_processing s).status = DocStatus.paused ∧
      ((s.units.filter (fun u => u.status = DocStatus.paused)) = [] →
        (resume_pcv_processing c s).status = DocStatus.running) := by
  refine ⟨?_, rfl, ?_⟩
  · unfold start_pcv_processing
    rw [if_neg]
    simp [h]
  · intro hp
    unfold resume_pcv_processing resumeAfterStatus
    rw [if_pos hp]

theorem C6_amended_witness :
    sCompleted.status = DocStatus.completed ∧
      start_pcv_processing cEx sCompleted = sCompleted ∧
      (pause_pcv_processing sCompleted).status = DocStatus.paused ∧
      ((sCompleted.units.filter (fun u => u.status = DocStatus.paused)) = [] →
        (resume_pcv_processing cEx sCompleted).status = DocStatus.running) := by
  have h := C6_amended cEx sCompleted (by decide)
  exact ⟨by decide, h.1, h.2.1, h.2.2⟩

/-! ### Claim C9 -/

theorem split_on_comma_ne_nil (l : Str) : split_on_comma l ≠ [] := by
  cases l with
  | nil => simp [split_on_comma]
  | cons c rest =>
    unfold split_on_comma
    cases split_on_comma rest with
    | nil => simp
    | cons h t =>
      by_cases hc : c = ','
      · simp [hc]
      · simp [hc]

theorem split_on_comma_no_comma (l : Str) (h : ',' ∉ l) : split_on_comma l = [l] := by
  induction l with
  | nil => rfl
  | cons c rest ih =>
    have hc : c ≠ ',' := by
      intro e
      exact h (e ▸ List.mem_cons_self c rest)
    have hr : ',' ∉ rest := fun m => h (List.mem_cons_of_mem c m)
    simp [split_on_comma, ih hr, hc]

theorem split_on_comma_append (x r : Str) (h : ',' ∉ x) :
    split_on_comma (x ++ ',' :: r) = x :: split_on_comma r := by
  induction x with
  | nil =>
    cases hsr : split_on_comma r with
    | nil => exact absurd hsr (split_on_comma_ne_nil r)
    | cons a t => simp [split_on_comma, hsr]
  | cons c xt ih =>
    have hc : c ≠ ',' := by
      intro e
      exact h (e ▸ List.mem_cons_self c xt)
    have hx : ',' ∉ xt := fun m => h (List.mem_cons_of_mem c m)
    simp [split_on_comma, ih hx, hc]

/-- Joining comma-free parts and splitting on commas is the identity (on a
nonempty list of parts). -/
theorem join_split_round_trip (ls : List Str) (hne : ls ≠ [])
    (hc : ∀ x ∈ ls, ',' ∉ x) :
    split_on_comma (join_comma ls) = ls := by
  induction ls with
  | nil => exact absurd rfl hne
  | cons x t ih =>
    cases t with
    | nil => simpa [join_comma] using split_on_comma_no_comma x (hc x (by simp))
    | cons y t2 =>
      have h1 : ',' ∉ x := hc x (by simp)
      have h2 := ih (by simp) (fun z hz => hc z (List.mem_cons_of_mem x hz))
      simp only [join_comma]
      rw [split_on_comma_append x _ h1, h2]

/-- The literal claim: for every dimension-key tuple, stringify-and-join
followed by splitting on the delimiter yields the original ordered values. -/
def SerializeRoundTrip : Prop :=
  ∀ ks : DimKey, split_on_comma (join_comma (ks.map py_str)) = ks.map py_str

def abEx : Str := "a,b".toList

/-- C9 (counterexample): a dimension value containing the delimiter breaks
the round trip — the single-component key `("a,b",)` serializes to `"a,b"`,
which splits back into two components. -/
theorem C9_counterexample : ¬ SerializeRoundTrip := by
  intro h
  exact absurd (h [some abEx]) (by decide)

/-- C9 (amended): the round trip holds exactly at the string level and only
for keys none of whose stringified components contains the delimiter; a
`None` component additionally comes back as the string `"None"`, not as
`None`. -/
theorem C9_amended (ks : DimKey) (hne : ks ≠ []) (hc : ∀ v ∈ ks, ',' ∉ py_str v) :
    split_on_comma (join_comma (ks.map py_str)) = ks.map py_str := by
  apply join_split_round_trip
  · simp [hne]
  · intro x hx
    obtain ⟨v, hv, rfl⟩ := List.mem_map.mp hx
    exact hc v hv

theorem C9_amended_witness :
    ([some ccMainEx, none] : DimKey) ≠ [] ∧
      (∀ v ∈ ([some ccMainEx, none] : DimKey), ',' ∉ py_str v) ∧
      split_on_comma (join_comma (([some ccMainEx, none] : DimKey).map py_str))
        = ([some ccMainEx, none] : DimKey).map py_str :=
  ⟨by decide, by decide, C9_amended [some ccMainEx, none] (by decide) (by decide)⟩

/-! ### Claim C10 -/

def dimsEx : DimKey := [some ccMainEx, none, none]

/-- C10: the dimension loop of both GL builders assigns, for each component
value `v` of the dimension-key tuple, a field *named* `v` with value `v`
(`gl_entry[dimension] = dimensions[i]` iterates over the value tuple, not
the dimension names); consequently every assigned (name, value) pair is
diagonal, and no field named after a dimension (`cost_center`,
`finance_book`, `project`, or a configured custom dimension) receives a
component value unless that value literally equals the dimension's name. -/
theorem C10_dimension_fields (pcv : Pcv) (acc : Str) (e : BalEntry) (dims : DimKey)
    (custom : List Str) :
    (get_gle_for_pl_account pcv acc e dims).dim_fields = dims.map (fun v => (v, v)) ∧
      (get_gle_for_closing_account pcv e dims).dim_fields = dims.map (fun v => (v, v)) ∧
      (∀ name ∈ get_dimensions custom, (some name : Option Str) ∉ dims →
        ∀ v, ((some name : Option Str), v) ∉ (get_gle_for_pl_account pcv acc e dims).dim_fields) := by
  refine ⟨rfl, rfl, ?_⟩
  intro name _ hnot v hmem
  have hfields : (get_gle_for_pl_account pcv acc e dims).dim_fields
      = dims.map (fun v => (v, v)) := rfl
  rw [hfields] at hmem
  obtain ⟨w, hw, heq⟩ := List.mem_map.mp hmem
  have hw1 : w = some name := congrArg Prod.fst heq
  exact hnot (hw1 ▸ hw)

theorem C10_dimension_fields_witness :
    (get_gle_for_pl_account pcvEx salesAccEx (init_acc_bal usdEx) dimsEx).dim_fields
        = dimsEx.map (fun v => (v, v)) ∧
      cost_center_s ∈ get_dimensions [] ∧ (some cost_center_s : Option Str) ∉ dimsEx ∧
      (∀ v, ((some cost_center_s : Option Str), v)
        ∉ (get_gle_for_pl_account pcvEx salesAccEx (init_acc_bal usdEx) dimsEx).dim_fields) :=
  ⟨(C10_dimension_fields pcvEx salesAccEx (init_acc_bal usdEx) dimsEx []).1,
   by decide, by decide,
   (C10_dimension_fields pcvEx salesAccEx (init_acc_bal usdEx) dimsEx []).2.2
     cost_center_s (by decide) (by decide)⟩

/-! ### Claim C4 -/

theorem find?_key_map (l : List ProcessPeriodClosingVoucherDetail)
    (f : ProcessPeriodClosingVoucherDetail → ProcessPeriodClosingVoucherDetail)
    (hk : ∀ u, (f u).key = u.key) (k : UnitKey) :
    (l.map f).find? (fun u => u.key = k) = (l.find? (fun u => u.key = k)).map f := by
  induction l with
  | nil => rfl
  | cons u t ih =>
    by_cases h : u.key = k
    · have h1 : (decide ((f u).key = k)) = true := by simp [hk u, h]
      have h2 : (decide (u.key = k)) = true := by simp [h]
      simp [List.find?_cons, h1, h2]
    · have h1 : (decide ((f u).key = k)) = false := by simp [hk u, h]
      have h2 : (decide (u.key = k)) = false := by simp [h]
      simp [List.find?_cons, h1, h2, ih]

/-- A row-wise rewrite that changes neither keys nor stored balances leaves
every `closing_balance` read unchanged. -/
theorem unit_cb_map (l : List ProcessPeriodClosingVoucherDetail)
    (f : ProcessPeriodClosingVoucherDetail → ProcessPeriodClosingVoucherDetail)
    (hk : ∀ u, (f u).key = u.key)
    (hcb : ∀ u, (f u).closing_balance = u.closing_balance) (k : UnitKey) :
    unit_closing_balance (l.map f) k = unit_closing_balance l k := by
  unfold unit_closing_balance
  rw [find?_key_map l f hk k]
  cases l.find? (fun u => u.key = k) with
  | none => rfl
  | some u => simp [hcb u]

theorem unit_cb_setUnitStatus (l : List ProcessPeriodClosingVoucherDetail)
    (k2 : UnitKey) (st : DocStatus) (k : UnitKey) :
    unit_closing_balance (setUnitStatus l k2 st) k = unit_closing_balance l k :=
  unit_cb_map l _ (fun u => by by_cases h : u.key = k2 <;> simp [h])
    (fun u => by by_cases h : u.key = k2 <;> simp [h]) k

theorem unit_cb_setCB (l : List ProcessPeriodClosingVoucherDetail) (k : UnitKey)
    (res : Option (List Row)) (hs : (l.find? (fun u => u.key = k)).isSome) :
    unit_closing_balance (setUnitClosingBalance l k res) k = res := by
  obtain ⟨u, hu⟩ := Option.isSome_iff_exists.mp hs
  have hk : u.key = k := by simpa using List.find?_some hu
  unfold unit_closing_balance setUnitClosingBalance
  rw [find?_key_map l _ (fun u => by by_cases h : u.key = k <;> simp [h]) k]
  rw [hu]
  simp [hk]

theorem postSummary_units (c : Ctx) (s : RunState) (dwb : DimMap) :
    ((postSummary c s dwb).1).units = s.units := by
  unfold postSummary
  split
  · rfl
  · split
    · rfl
    · split <;> rfl

theorem summarize_units (c : Ctx) (s : RunState) :
    ((summarize_and_post_ledger_entries c s).1).units = s.units := by
  unfold summarize_and_post_ledger_entries
  split
  · split
    · rfl
    · rw [postSummary_units]
  · rfl

/-- Advance (`schedule_next_date`) never changes a stored `closing_balance`
(it only rewrites statuses and run-level fields). -/
theorem schedule_units_cb (c : Ctx) (s : RunState) (k : UnitKey) :
    unit_closing_balance ((schedule_next_date c s).1).units k
      = unit_closing_balance s.units k := by
  unfold schedule_next_date
  split
  · split
    · exact unit_cb_setUnitStatus s.units _ DocStatus.running k
    · rfl
  · split
    · rw [summarize_units]
    · rfl

/-- The serialized payload the unit row holds after a call. -/
def stored_unit_json (s : RunState) (k : UnitKey) : Option Json :=
  (unit_closing_balance s.units k).map serialize_rows

/-- Modelled from the spec's words (the payload shape the claim asserts):
the aggregation result folded into the dimension-key → account → accumulator
mapping, serialized with comma-joined tuple keys. -/
def claimed_unit_payload_json (custom : List Str) (rows : List Row) : Json :=
  keyed_mapping_json (build_dimension_wise_balance_dict custom rows)

/-- The literal claim: the worker persists onto the unit the serialized
keyed mapping. -/
def WorkerStoresKeyedMapping (c : Ctx) (s : RunState) (k : UnitKey) : Prop :=
  stored_unit_json ((process_individual_date c s k).1) k
    = some (claimed_unit_payload_json c.custom_dimensions
        (c.agg k.processing_date k.report_type))

/-- C4 (counterexample): on a running unit the worker stores
`json.dumps(res)` — a JSON *array* of raw aggregation rows — not the
dimension-keyed JSON *object* the claim describes (that object is built
later by the poster and stored on the run). -/
theorem C4_counterexample : ¬ WorkerStoresKeyedMapping cAggEx sRun1 kEx := by
  intro h
  exact absurd (congrArg (Option.map json_is_obj) h) (by decide)

/-- C4 (amended): the worker persists onto the unit the raw aggregation row
list, serialized as a JSON array (`json.dumps(res)`); the folding into the
dimension-keyed, comma-joined mapping happens only later, in the poster,
and is persisted on the run, not on the unit. -/
theorem C4_amended (c : Ctx) (s : RunState) (k : UnitKey)
    (h : unit_status s.units k = some DocStatus.running) :
    unit_closing_balance ((process_individual_date c s k).1).units k
        = some (c.agg k.processing_date k.report_type) ∧
      stored_unit_json (process_individual_date c s k).1 k
        = some (serialize_rows (c.agg k.processing_date k.report_type)) := by
  have hs : (s.units.find? (fun u => u.key = k)).isSome := by
    unfold unit_status at h
    cases hf : s.units.find? (fun u => u.key = k) with
    | none => rw [hf] at h; cases h
    | some u => simp
  have hcb : unit_closing_balance ((process_individual_date c s k).1).units k
      = some (c.agg k.processing_date k.report_type) := by
    unfold process_individual_date
    rw [if_pos h]
    show unit_closing_balance ((schedule_next_date c _).1).units k = _
    rw [schedule_units_cb]
    show unit_closing_balance
      (setUnitStatus (setUnitClosingBalance s.units k
        (some (c.agg k.processing_date k.report_type))) k DocStatus.completed) k = _
    rw [unit_cb_setUnitStatus]
    exact unit_cb_setCB s.units k _ hs
  refine ⟨hcb, ?_⟩
  unfold stored_unit_json
  rw [hcb]
  rfl

theorem C4_amended_witness :
    unit_status sRun1.units kEx = some DocStatus.running ∧
      unit_closing_balance ((process_individual_date cAggEx sRun1 kEx).1).units kEx
        = some (cAggEx.agg kEx.processing_date kEx.report_type) ∧
      stored_unit_json (process_individual_date cAggEx sRun1 kEx).1 kEx
        = some (serialize_rows (cAggEx.agg kEx.processing_date kEx.report_type)) := by
  have h := C4_amended cAggEx sRun1 kEx (by decide)
  exact ⟨by decide, h.1, h.2⟩

/-! ### Claim C7 -/

/-- The `json_dict` the poster persists on the run for a given collected row
list. -/
def merged_json (c : Ctx) (rows : List Row) : List (Str × AccountMap) :=
  to_json_dict (build_dimension_wise_balance_dict c.custom_dimensions rows)

/-- `closing_entries` reads only the parent voucher from the context. -/
theorem closing_entries_pcv_eq (c c2 : Ctx) (h : c.pcv = c2.pcv) :
    ∀ dwb : DimMap, closing_entries c dwb = closing_entries c2 dwb := by
  intro dwb
  induction dwb with
  | nil => rfl
  | cons kv t ih =>
    obtain ⟨dk, am⟩ := kv
    simp only [closing_entries, ih, h]

/-- `build_gl_map` reads only the parent voucher from the context. -/
theorem build_gl_map_pcv_eq (c c2 : Ctx) (h : c.pcv = c2.pcv) (dwb : DimMap) :
    build_gl_map c dwb = build_gl_map c2 dwb := by
  have hpl : pl_reversal_entries c dwb = pl_reversal_entries c2 dwb := by
    simp only [pl_reversal_entries, h]
  unfold build_gl_map
  rw [closing_entries_pcv_eq c c2 h dwb, hpl]

/-- Evaluation of the poster on the failing-post path: the merged mapping is
persisted, then the poster aborts, skipping both the ledger append and the
`Completed` status write. -/
theorem summarize_posting_failed (c : Ctx) (s : RunState) (rows : List Row)
    (gls : List GlEntry)
    (hrun : s.units.filter (fun u => u.status = DocStatus.running) = [])
    (hcol : collect_closing_balances s.units = some rows)
    (hb : build_gl_map c (build_dimension_wise_balance_dict c.custom_dimensions rows)
          = some gls)
    (hne : gls ≠ []) (hpost : c.post_ok = false) :
    summarize_and_post_ledger_entries c s
      = ({ s with p_l_closing_balance := some (merged_json c rows) },
         some PcvError.posting_failed) := by
  simp [summarize_and_post_ledger_entries, postSummary, make_gl_entries, merged_json,
    hrun, hcol, hb, hne, hpost]

/-- Evaluation of the poster on the successful path. -/
theorem summarize_success (c : Ctx) (s : RunState) (rows : List Row) (gls : List GlEntry)
    (hrun : s.units.filter (fun u => u.status = DocStatus.running) = [])
    (hcol : collect_closing_balances s.units = some rows)
    (hb : build_gl_map c (build_dimension_wise_balance_dict c.custom_dimensions rows)
          = some gls)
    (hne : gls ≠ []) (hok : c.post_ok = true) :
    summarize_and_post_ledger_entries c s
      = ({ s with p_l_closing_balance := some (merged_json c rows),
                  ledger := s.ledger ++ gls, status := DocStatus.completed }, none) := by
  simp [summarize_and_post_ledger_entries, postSummary, make_gl_entries, merged_json,
    hrun, hcol, hb, hne, hok]

/-- The literal claim: a posting failure leaves the run's state unchanged. -/
def PostingFailureLeavesStateUnchanged (c : Ctx) : Prop :=
  ∀ s : RunState,
    (summarize_and_post_ledger_entries c s).2 = some PcvError.posting_failed →
      (summarize_and_post_ledger_entries c s).1 = s

/-- C7 (counterexample): the poster persists the merged mapping
(`p_l_closing_balance`) *before* attempting to post, so a failed
`make_gl_entries` leaves the run mutated (its summary field is freshly
written) even though no entries were committed. -/
theorem C7_counterexample : ¬ PostingFailureLeavesStateUnchanged cFailEx := by
  intro h
  exact absurd (h sPost (by decide)) (by decide)

/-- C7 (amended): if the atomic posting step fails, the run's status is not
set to `Completed` (status, unit rows, committed ledger and job queue are
all unchanged); the merged summary field `p_l_closing_balance` has, however,
already been overwritten before the posting attempt.  Retrying is still
safe: re-running the poster (with posting now succeeding) recomputes the
merge fresh from the unit payloads and yields exactly the state a direct
success would have produced. -/
theorem C7_amended (c : Ctx) (s : RunState) (rows : List Row) (gls : List GlEntry)
    (hrun : s.units.filter (fun u => u.status = DocStatus.running) = [])
    (hcol : collect_closing_balances s.units = some rows)
    (hb : build_gl_map c (build_dimension_wise_balance_dict c.custom_dimensions rows)
          = some gls)
    (hne : gls ≠ []) (hpost : c.post_ok = false) :
    (summarize_and_post_ledger_entries c s).2 = some PcvError.posting_failed ∧
      (summarize_and_post_ledger_entries c s).1.status = s.status ∧
      (summarize_and_post_ledger_entries c s).1.units = s.units ∧
      (summarize_and_post_ledger_entries c s).1.ledger = s.ledger ∧
      (summarize_and_post_ledger_entries c s).1.pending = s.pending ∧
      summarize_and_post_ledger_entries { c with post_ok := true }
          (summarize_and_post_ledger_entries c s).1
        = summarize_and_post_ledger_entries { c with post_ok := true } s := by
  have hb2 : build_gl_map { c with post_ok := true }
      (build_dimension_wise_balance_dict c.custom_dimensions rows) = some gls := by
    rw [build_gl_map_pcv_eq { c with post_ok := true } c rfl]
    exact hb
  have hres := summarize_posting_failed c s rows gls hrun hcol hb hne hpost
  rw [hres]
  refine ⟨rfl, rfl, rfl, rfl, rfl, ?_⟩
  have hA := summarize_success { c with post_ok := true } s rows gls hrun hcol hb2 hne rfl
  have hB := summarize_success { c with post_ok := true }
    ({ s with p_l_closing_balance := some (merged_json c rows) })
    rows gls hrun hcol hb2 hne rfl
  rw [hA, hB]

def glsEx : List GlEntry :=
  (build_gl_map cFailEx (build_dimension_wise_balance_dict cFailEx.custom_dimensions [rowEx])).getD []

theorem C7_amended_witness :
    (sPost.units.filter (fun u => u.status = DocStatus.running) = []) ∧
      collect_closing_balances sPost.units = some [rowEx] ∧
      build_gl_map cFailEx
          (build_dimension_wise_balance_dict cFailEx.custom_dimensions [rowEx]) = some glsEx ∧
      glsEx ≠ [] ∧ cFailEx.post_ok = false ∧
      ((summarize_and_post_ledger_entries cFailEx sPost).2 = some PcvError.posting_failed ∧
        (summarize_and_post_ledger_entries cFailEx sPost).1.status = sPost.status ∧
        (summarize_and_post_ledger_entries cFailEx sPost).1.units = sPost.units ∧
        (summarize_and_post_ledger_entries cFailEx sPost).1.ledger = sPost.ledger ∧
        (summarize_and_post_ledger_entries cFailEx sPost).1.pending = sPost.pending ∧
        summarize_and_post_ledger_entries { cFailEx with post_ok := true }
            (summarize_and_post_ledger_entries cFailEx sPost).1
          = summarize_and_post_ledger_entries { cFailEx with post_ok := true } sPost) :=
  ⟨by decide, by decide, by decide, by decide, rfl,
   C7_amended cFailEx sPost [rowEx] glsEx (by decide) (by decide) (by decide) (by decide) rfl⟩

/-! ### Claim C8 -/

theorem gle_pl_debit (pcv : Pcv) (acc : Str) (e : BalEntry) (dims : DimKey) :
    (get_gle_for_pl_account pcv acc e dims).debit
      = if flt (entry_debit e) - flt (entry_credit e) < 0 then
          |flt (entry_debit e) - flt (entry_credit e)| else 0 := rfl

theorem gle_pl_credit (pcv : Pcv) (acc : Str) (e : BalEntry) (dims : DimKey) :
    (get_gle_for_pl_account pcv acc e dims).credit
      = if flt (entry_debit e) - flt (entry_credit e) > 0 then
          |flt (entry_debit e) - flt (entry_credit e)| else 0 := rfl

theorem closing_entries_length (c : Ctx) :
    ∀ (dwb : DimMap) (cl : List GlEntry),
      closing_entries c dwb = some cl → cl.length = dwb.length := by
  intro dwb
  induction dwb with
  | nil =>
    intro cl hcl
    cases hcl
    rfl
  | cons kv t ih =>
    obtain ⟨dk, am⟩ := kv
    intro cl hcl
    unfold closing_entries at hcl
    cases hl : lookupEntry am balances_key with
    | none =>
      rw [hl] at hcl
      cases hr : closing_entries c t with
      | none => rw [hr] at hcl; cases hcl
      | some rest => rw [hr] at hcl; cases hcl
    | some b =>
      rw [hl] at hcl
      cases hr : closing_entries c t with
      | none => rw [hr] at hcl; cases hcl
      | some rest =>
        rw [hr] at hcl
        cases hcl
        simp [ih rest hr]

/-- C8: for every dimension group of the merged mapping, an account whose
net company-currency balance is zero produces no reversing entry in the
`pl_accounts_reverse_gle` list (every emitted reversal has a nonzero debit
or credit, while the zero-balance entry would have both zero); and the
`closing_account_gle` list holds exactly one closing-account entry per
dimension key — zero balance or not — whenever every group carries its
`"balances"` totals entry. -/
theorem C8_zero_balance_entries (c : Ctx) (dwb : DimMap) :
    (∀ dk am, (dk, am) ∈ dwb → ∀ acc e, (acc, e) ∈ am →
      flt (entry_debit e) - flt (entry_credit e) = 0 →
        get_gle_for_pl_account c.pcv acc e dk ∉ pl_reversal_entries c dwb) ∧
      (∀ cl, closing_entries c dwb = some cl → cl.length = dwb.length) := by
  refine ⟨?_, closing_entries_length c dwb⟩
  intro dk am _ acc e _ hzero hmem
  unfold pl_reversal_entries at hmem
  rw [List.mem_flatten] at hmem
  obtain ⟨l, hl, hgl⟩ := hmem
  rw [List.mem_map] at hl
  obtain ⟨kv, _, rfl⟩ := hl
  rw [List.mem_filterMap] at hgl
  obtain ⟨ab, _, habeq⟩ := hgl
  by_cases hz : flt (entry_debit ab.2) - flt (entry_credit ab.2) ≠ 0
  · rw [if_pos hz] at habeq
    have heq := Option.some.inj habeq
    have hd := congrArg GlEntry.debit heq
    have hcr := congrArg GlEntry.credit heq
    rw [gle_pl_debit, gle_pl_debit, hzero] at hd
    rw [gle_pl_credit, gle_pl_credit, hzero] at hcr
    simp only [lt_self_iff_false, gt_iff_lt, if_false, ite_false] at hd hcr
    rcases lt_trichotomy (flt (entry_debit ab.2) - flt (entry_credit ab.2)) 0 with hlt | h0 | hgt
    · rw [if_pos hlt] at hd
      have := abs_eq_zero.mp hd
      exact absurd this (by omega)
    · exact hz h0
    · rw [if_pos hgt] at hcr
      have := abs_eq_zero.mp hcr
      exact absurd this (by omega)
  · rw [if_neg hz] at habeq
    cases habeq

def amEx : AccountMap :=
  [(salesAccEx, init_acc_bal usdEx),
   (balances_key, BalEntry.tot { balance_in_account_currency := 0,
                                 balance_in_company_currency := 0 })]

def dwbEx : DimMap := [(dimsEx, amEx)]

theorem C8_zero_balance_entries_witness :
    ((dimsEx, amEx) ∈ dwbEx) ∧ ((salesAccEx, init_acc_bal usdEx) ∈ amEx) ∧
      (flt (entry_debit (init_acc_bal usdEx)) - flt (entry_credit (init_acc_bal usdEx)) = 0) ∧
      (get_gle_for_pl_account cEx.pcv salesAccEx (init_acc_bal usdEx) dimsEx
        ∉ pl_reversal_entries cEx dwbEx) ∧
      closing_entries cEx dwbEx
        = some [get_gle_for_closing_account cEx.pcv
            (BalEntry.tot { balance_in_account_currency := 0,
                            balance_in_company_currency := 0 }) dimsEx] ∧
      [get_gle_for_closing_account cEx.pcv
          (BalEntry.tot { balance_in_account_currency := 0,
                          balance_in_company_currency := 0 }) dimsEx].length = dwbEx.length :=
  ⟨by decide, by decide, by decide,
   (C8_zero_balance_entries cEx dwbEx).1 dimsEx amEx (by decide) salesAccEx
     (init_acc_bal usdEx) (by decide) (by decide),
   by decide,
   (C8_zero_balance_entries cEx dwbEx).2 _ (by decide)⟩

/-! ### Claim C2 -/

/-- The number of `Running` rows in a detail-row list. -/
def running_count (l : List ProcessPeriodClosingVoucherDetail) : Nat :=
  (l.filter (fun u => u.status = DocStatus.running)).length

theorem runningLen_eq (s : RunState) : runningLen s = running_count s.units := rfl

/-- A row-wise rewrite that can only remove `Running` statuses does not
increase the running count. -/
theorem running_count_map_le (l : List ProcessPeriodClosingVoucherDetail)
    (f : ProcessPeriodClosingVoucherDetail → ProcessPeriodClosingVoucherDetail)
    (h : ∀ u, (f u).status = DocStatus.running → u.status = DocStatus.running) :
    running_count (l.map f) ≤ running_count l := by
  induction l with
  | nil => exact Nat.le_refl 0
  | cons u t ih =>
    by_cases h1 : (f u).status = DocStatus.running
    · have h2 := h u h1
      simp only [running_count, List.map_cons, List.filter_cons, h1, h2, decide_True,
        if_true, List.length_cons]
      exact Nat.succ_le_succ ih
    · by_cases h2 : u.status = DocStatus.running
      · simp only [running_count, List.map_cons, List.filter_cons, h1, h2, decide_True,
          decide_False, if_true, if_false, List.length_cons]
        exact Nat.le_succ_of_le ih
      · simp only [running_count, List.map_cons, List.filter_cons, h1, h2,
          decide_False, if_false]
        exact ih

/-- A row-wise rewrite that preserves every status preserves the running
count. -/
theorem running_count_map_eq (l : List ProcessPeriodClosingVoucherDetail)
    (f : ProcessPeriodClosingVoucherDetail → ProcessPeriodClosingVoucherDetail)
    (h : ∀ u, (f u).status = u.status) :
    running_count (l.map f) = running_count l := by
  induction l with
  | nil => rfl
  | cons u t ih =>
    by_cases h2 : u.status = DocStatus.running
    · have h1 : (f u).status = DocStatus.running := (h u).trans h2
      simp only [running_count, List.map_cons, List.filter_cons, h1, h2, decide_True,
        if_true, List.length_cons] at ih ⊢
      exact congrArg Nat.succ ih
    · have h1 : ¬ (f u).status = DocStatus.running := fun e => h2 ((h u).symm.trans e)
      simp only [running_count, List.map_cons, List.filter_cons, h1, h2,
        decide_False, if_false] at ih ⊢
      exact ih

/-- Updating a key that no row carries is the identity. -/
theorem setUnitStatus_id (l : List ProcessPeriodClosingVoucherDetail) (k : UnitKey)
    (st : DocStatus) (h : ∀ v ∈ l, v.key ≠ k) : setUnitStatus l k st = l := by
  unfold setUnitStatus
  have hcongr : ∀ v ∈ l, (if v.key = k then { v with status := st } else v) = id v :=
    fun v hv => by simp [h v hv]
  rw [List.map_congr_left hcongr, List.map_id]

/-- A status update on one key (the keys being unique) raises the running
count by at most one. -/
theorem running_count_setStatus_le_succ (l : List ProcessPeriodClosingVoucherDetail)
    (k : UnitKey) (st : DocStatus)
    (hnd : (l.map (fun u => u.key)).Nodup) :
    running_count (setUnitStatus l k st) ≤ running_count l + 1 := by
  induction l with
  | nil => exact Nat.zero_le 1
  | cons u t ih =>
    rw [List.map_cons, List.nodup_cons] at hnd
    obtain ⟨hnotin, hnd2⟩ := hnd
    have iht := ih hnd2
    by_cases hk : u.key = k
    · have ht : setUnitStatus t k st = t :=
        setUnitStatus_id t k st (fun v hv e =>
          hnotin (hk ▸ e ▸ List.mem_map_of_mem (fun u => u.key) hv))
      show running_count ((if u.key = k then { u with status := st } else u)
        :: setUnitStatus t k st) ≤ _
      rw [if_pos hk, ht]
      by_cases h1 : st = DocStatus.running <;> by_cases h2 : u.status = DocStatus.running <;>
        (simp [running_count, List.filter_cons, h1, h2]; try omega)
    · show running_count ((if u.key = k then { u with status := st } else u)
        :: setUnitStatus t k st) ≤ _
      rw [if_neg hk]
      by_cases h2 : u.status = DocStatus.running <;>
        simp [running_count, List.filter_cons, h2] at iht ⊢ <;> omega

/-- Completing a key currently held by a `Running` row (the keys being
unique) lowers the running count by exactly one. -/
theorem running_count_complete (l : List ProcessPeriodClosingVoucherDetail) (k : UnitKey)
    (hex : ∃ u ∈ l, u.key = k ∧ u.status = DocStatus.running)
    (hnd : (l.map (fun u => u.key)).Nodup) :
    running_count (setUnitStatus l k DocStatus.completed) + 1 ≤ running_count l := by
  induction l with
  | nil => obtain ⟨u, hu, _⟩ := hex; cases hu
  | cons u t ih =>
    rw [List.map_cons, List.nodup_cons] at hnd
    obtain ⟨hnotin, hnd2⟩ := hnd
    by_cases hk : u.key = k
    · have hu : u.status = DocStatus.running := by
        obtain ⟨v, hv, hvk, hvr⟩ := hex
        rcases List.mem_cons.mp hv with rfl | hvt
        · exact hvr
        · exact absurd (hk ▸ hvk ▸ List.mem_map_of_mem (fun u => u.key) hvt) hnotin
      have ht : setUnitStatus t k DocStatus.completed = t :=
        setUnitStatus_id t k DocStatus.completed (fun v hv e =>
          hnotin (hk ▸ e ▸ List.mem_map_of_mem (fun u => u.key) hv))
      show running_count ((if u.key = k then { u with status := DocStatus.completed } else u)
        :: setUnitStatus t k DocStatus.completed) + 1 ≤ _
      rw [if_pos hk, ht]
      simp [running_count, List.filter_cons, hu]
    · have hext : ∃ v ∈ t, v.key = k ∧ v.status = DocStatus.running := by
        obtain ⟨v, hv, hvk, hvr⟩ := hex
        rcases List.mem_cons.mp hv with rfl | hvt
        · exact absurd hvk hk
        · exact ⟨v, hvt, hvk, hvr⟩
      have iht := ih hext hnd2
      show running_count ((if u.key = k then { u with status := DocStatus.completed } else u)
        :: setUnitStatus t k DocStatus.completed) + 1 ≤ _
      rw [if_neg hk]
      by_cases h2 : u.status = DocStatus.running <;>
        simp [running_count, List.filter_cons, h2] at iht ⊢ <;> omega

/-- Key-preserving rewrites preserve the key list. -/
theorem keys_map (l : List ProcessPeriodClosingVoucherDetail)
    (f : ProcessPeriodClosingVoucherDetail → ProcessPeriodClosingVoucherDetail)
    (hk : ∀ u, (f u).key = u.key) :
    (l.map f).map (fun u => u.key) = l.map (fun u => u.key) := by
  rw [List.map_map]
  exact List.map_congr_left (fun u _ => hk u)

theorem running_count_zero (l : List ProcessPeriodClosingVoucherDetail)
    (hq : ∀ u ∈ l, u.status = DocStatus.queued) : running_count l = 0 := by
  induction l with
  | nil => rfl
  | cons u t ih =>
    have hu := hq u (List.mem_cons_self u t)
    have iht := ih (fun v hv => hq v (List.mem_cons_of_mem u hv))
    simp [running_count, List.filter_cons, hu] at iht ⊢
    exact iht

/-- The invariant carried along worker executions: unique row keys and at
most 4 `Running` rows. -/
def InvLe4 (s : RunState) : Prop :=
  (s.units.map (fun u => u.key)).Nodup ∧ running_count s.units ≤ 4

/-- One Advance call adds at most one `Running` row and preserves the key
list. -/
theorem schedule_bound (c : Ctx) (s : RunState)
    (hnd : (s.units.map (fun u => u.key)).Nodup) :
    running_count ((schedule_next_date c s).1).units ≤ running_count s.units + 1 ∧
      ((schedule_next_date c s).1).units.map (fun u => u.key)
        = s.units.map (fun u => u.key) := by
  cases heq : fetch_queued s.units with
  | cons u rest =>
    by_cases hact : c.scheduler_active
    · have hsch : (schedule_next_date c s).1 = dispatch_unit s u := by
        unfold schedule_next_date
        rw [heq]
        simp [hact]
      rw [hsch]
      refine ⟨?_, ?_⟩
      · exact running_count_setStatus_le_succ s.units u.key DocStatus.running hnd
      · exact keys_map s.units _ (fun v => by by_cases h2 : v.key = u.key <;> simp [h2])
    · have hsch : (schedule_next_date c s).1 = s := by
        unfold schedule_next_date
        rw [heq]
        simp [hact]
      rw [hsch]
      exact ⟨Nat.le_succ _, rfl⟩
  | nil =>
    by_cases hlen : s.units.length
        = (s.units.filter (fun u => u.status = DocStatus.completed)).length
    · have hsch : (schedule_next_date c s).1 = (summarize_and_post_ledger_entries c s).1 := by
        unfold schedule_next_date
        rw [heq]
        simp [hlen]
      rw [hsch]
      constructor
      · rw [summarize_units]
        exact Nat.le_succ _
      · rw [summarize_units]
    · have hsch : (schedule_next_date c s).1 = s := by
        unfold schedule_next_date
        rw [heq]
        simp [hlen]
      rw [hsch]
      exact ⟨Nat.le_succ _, rfl⟩

theorem keys_setStatus (l : List ProcessPeriodClosingVoucherDetail) (k : UnitKey)
    (st : DocStatus) :
    (setUnitStatus l k st).map (fun u => u.key) = l.map (fun u => u.key) := by
  unfold setUnitStatus
  apply keys_map
  intro v
  by_cases h2 : v.key = k <;> simp [h2]

theorem keys_setCB (l : List ProcessPeriodClosingVoucherDetail) (k : UnitKey)
    (v : Option (List Row)) :
    (setUnitClosingBalance l k v).map (fun u => u.key) = l.map (fun u => u.key) := by
  unfold setUnitClosingBalance
  apply keys_map
  intro u
  by_cases h2 : u.key = k <;> simp [h2]

theorem running_count_setCB (l : List ProcessPeriodClosingVoucherDetail) (k : UnitKey)
    (v : Option (List Row)) :
    running_count (setUnitClosingBalance l k v) = running_count l := by
  unfold setUnitClosingBalance
  apply running_count_map_eq
  intro u
  by_cases h2 : u.key = k <;> simp [h2]

/-- The worker's two child-row writes (store the result, mark `Completed`)
preserve the key list and free exactly one `Running` slot. -/
theorem worker_units_invariant (l : List ProcessPeriodClosingVoucherDetail) (k : UnitKey)
    (res : List Row) (hrun : unit_status l k = some DocStatus.running)
    (hnd : (l.map (fun u => u.key)).Nodup) :
    (setUnitStatus (setUnitClosingBalance l k (some res)) k DocStatus.completed).map
        (fun u => u.key) = l.map (fun u => u.key) ∧
      running_count (setUnitStatus (setUnitClosingBalance l k (some res)) k
        DocStatus.completed) + 1 ≤ running_count l := by
  have hk1 := keys_setCB l k (some res)
  have hnd1 : ((setUnitClosingBalance l k (some res)).map (fun u => u.key)).Nodup := by
    rw [hk1]; exact hnd
  have hcnt1 := running_count_setCB l k (some res)
  have hex : ∃ u ∈ setUnitClosingBalance l k (some res),
      u.key = k ∧ u.status = DocStatus.running := by
    unfold unit_status at hrun
    cases hfind : l.find? (fun u => u.key = k) with
    | none => rw [hfind] at hrun; cases hrun
    | some u =>
      rw [hfind] at hrun
      have hustat : u.status = DocStatus.running := by simpa using hrun
      have hukey : u.key = k := by simpa using List.find?_some hfind
      refine ⟨{ u with closing_balance := some res }, ?_, hukey, hustat⟩
      have hmem := List.mem_of_find?_eq_some hfind
      have hmem2 := List.mem_map_of_mem
        (fun v => if v.key = k then { v with closing_balance := some res } else v) hmem
      simpa [setUnitClosingBalance, hukey] using hmem2
  have hcomp := running_count_complete (setUnitClosingBalance l k (some res)) k hex hnd1
  have hk2 : (setUnitStatus (setUnitClosingBalance l k (some res)) k
      DocStatus.completed).map (fun u => u.key) = l.map (fun u => u.key) := by
    rw [keys_setStatus, hk1]
  exact ⟨hk2, by omega⟩

/-- A worker execution preserves the invariant: completing its `Running` row
frees the slot its chained Advance may re-fill. -/
theorem process_preserves (c : Ctx) (s : RunState) (k : UnitKey) (h : InvLe4 s) :
    InvLe4 ((process_individual_date c s k).1) := by
  obtain ⟨hnd, hle⟩ := h
  by_cases hrun : unit_status s.units k = some DocStatus.running
  · unfold process_individual_date
    rw [if_pos hrun]
    show InvLe4 (schedule_next_date c
      { s with units := setUnitStatus (setUnitClosingBalance s.units k
          (some (c.agg k.processing_date k.report_type))) k DocStatus.completed }).1
    obtain ⟨hkeys2, hcomp⟩ := worker_units_invariant s.units k
      (c.agg k.processing_date k.report_type) hrun hnd
    have hnd2 : ((setUnitStatus (setUnitClosingBalance s.units k
        (some (c.agg k.processing_date k.report_type))) k DocStatus.completed).map
          (fun u => u.key)).Nodup := by
      rw [hkeys2]; exact hnd
    obtain ⟨hb, hkeys⟩ := schedule_bound c
      { s with units := setUnitStatus (setUnitClosingBalance s.units k
          (some (c.agg k.processing_date k.report_type))) k DocStatus.completed } hnd2
    dsimp only at hb hkeys
    constructor
    · rw [hkeys]
      exact hnd2
    · omega
  · unfold process_individual_date
    rw [if_neg hrun]
    exact ⟨hnd, hle⟩

theorem pause_preserves (s : RunState) (h : InvLe4 s) : InvLe4 (pause_pcv_processing s) := by
  obtain ⟨hnd, hle⟩ := h
  have hkeys : (pause_pcv_processing s).units.map (fun u => u.key)
      = s.units.map (fun u => u.key) := by
    unfold pause_pcv_processing
    dsimp only
    apply keys_map
    intro u
    by_cases h2 : u.status = DocStatus.queued <;> simp [h2]
  have hcnt : running_count (pause_pcv_processing s).units ≤ running_count s.units := by
    unfold pause_pcv_processing
    dsimp only
    apply running_count_map_le
    intro u h1
    by_cases h2 : u.status = DocStatus.queued
    · simp [h2] at h1
    · rw [if_neg h2] at h1
      exact h1
  constructor
  · rw [hkeys]
    exact hnd
  · omega

theorem dispatch_units_bound :
    ∀ (batch : List ProcessPeriodClosingVoucherDetail) (s : RunState),
      (s.units.map (fun u => u.key)).Nodup →
        running_count (dispatch_units s batch).units
            ≤ running_count s.units + batch.length ∧
          (dispatch_units s batch).units.map (fun u => u.key)
            = s.units.map (fun u => u.key) := by
  intro batch
  induction batch with
  | nil => exact fun s _ => ⟨by simp [dispatch_units], rfl⟩
  | cons b bt ih =>
    intro s h
    have h1 : (dispatch_unit s b).units.map (fun u => u.key)
        = s.units.map (fun u => u.key) := keys_setStatus s.units b.key DocStatus.running
    have h2 : running_count (dispatch_unit s b).units ≤ running_count s.units + 1 :=
      running_count_setStatus_le_succ s.units b.key DocStatus.running h
    have h3 := ih (dispatch_unit s b) (by rw [h1]; exact h)
    have hstep : dispatch_units s (b :: bt) = dispatch_units (dispatch_unit s b) bt := rfl
    constructor
    · rw [hstep]
      have h4 := h3.1
      simp only [List.length_cons]
      omega
    · rw [hstep, h3.2, h1]

theorem startAfterGuard_le4 (c : Ctx) (s : RunState)
    (hq : ∀ u ∈ s.units, u.status = DocStatus.queued)
    (hnd : (s.units.map (fun u => u.key)).Nodup) :
    InvLe4 (startAfterGuard c s) := by
  have h0 := running_count_zero s.units hq
  unfold startAfterGuard
  cases heq : fetch_queued s.units with
  | nil =>
    show InvLe4 { s with status := DocStatus.completed }
    refine ⟨hnd, ?_⟩
    show running_count s.units ≤ 4
    omega
  | cons u rest =>
    show InvLe4 (if c.scheduler_active = true then dispatch_units s (u :: rest) else s)
    by_cases hact : c.scheduler_active
    · rw [if_pos hact]
      have hlen : (u :: rest).length ≤ 4 := by
        rw [← heq]
        unfold fetch_queued
        rw [List.length_take]
        exact min_le_left _ _
      obtain ⟨hb, hkeys⟩ := dispatch_units_bound (u :: rest) s hnd
      refine ⟨by rw [hkeys]; exact hnd, ?_⟩
      omega
    · rw [if_neg hact]
      exact ⟨hnd, by omega⟩

theorem start_le4 (c : Ctx) (s : RunState)
    (hq : ∀ u ∈ s.units, u.status = DocStatus.queued)
    (hnd : (s.units.map (fun u => u.key)).Nodup) :
    InvLe4 (start_pcv_processing c s) := by
  unfold start_pcv_processing
  split
  · exact startAfterGuard_le4 c { s with status := DocStatus.running } hq hnd
  · exact ⟨hnd, by have h0 := running_count_zero s.units hq; omega⟩

/-- Every no-restart step (a worker execution or a Pause) preserves the
invariant. -/
theorem workerstep_preserves (c : Ctx) (s1 s2 : RunState)
    (hstep : WorkerStep c s1 s2) (h : InvLe4 s1) : InvLe4 s2 := by
  cases hstep with
  | worker k hk =>
    exact process_preserves c { s1 with pending := s1.pending.erase k } k h
  | pause => exact pause_preserves s1 h

def RunningAtMostFour (c : Ctx) (s0 : RunState) : Prop :=
  ∀ s, Reachable c s0 s → runningLen s ≤ 4

/-- C2 (counterexample): Start has no admission check against already
`Running` rows — from a fresh 8-unit run, calling Start twice (its guard
admits a `Running` run) dispatches two batches of 4 and reaches a state
with 8 `Running` units. -/
theorem C2_counterexample : ¬ RunningAtMostFour cEx init8 := by
  intro h
  exact absurd
    (h (start_pcv_processing cEx (start_pcv_processing cEx init8))
      (Relation.ReflTransGen.tail
        (Relation.ReflTransGen.tail Relation.ReflTransGen.refl (Step.start init8))
        (Step.start (start_pcv_processing cEx init8))))
    (by decide)

/-- C2 (amended): the ≤ 4 bound does hold for the intended execution shape:
after a single Start on a fresh run (all units `Queued`, keys unique), any
sequence of worker executions (each completes its `Running` unit before its
Advance dispatches at most one more) and Pauses keeps the number of
`Running` units at most 4.  A second Start, or a Resume (which re-invokes
Start), can exceed the bound, as the counterexample shows. -/
theorem C2_amended (c : Ctx) (s0 : RunState)
    (hq : ∀ u ∈ s0.units, u.status = DocStatus.queued)
    (hnd : (s0.units.map (fun u => u.key)).Nodup) :
    ∀ s, Relation.ReflTransGen (WorkerStep c) (start_pcv_processing c s0) s →
      runningLen s ≤ 4 := by
  intro s hreach
  have hInv : InvLe4 s := by
    induction hreach with
    | refl => exact start_le4 c s0 hq hnd
    | tail hsteps hstep ih => exact workerstep_preserves c _ _ hstep ih
  exact hInv.2

theorem C2_amended_witness :
    (∀ u ∈ init1.units, u.status = DocStatus.queued) ∧
      (init1.units.map (fun u => u.key)).Nodup ∧
      runningLen (start_pcv_processing cEx init1) ≤ 4 :=
  ⟨by decide, by decide,
   C2_amended cEx init1 (by decide) (by decide) _ Relation.ReflTransGen.refl⟩
